import Mathlib

set_option maxRecDepth 16384

/-!
Verification of `utils/ipc/extract-docs.py` (libcamera): a line scanner that
extracts doxygen comment blocks (delimited by a line `/**` and a line ` */`)
from a mojom file and re-emits them verbatim between a fixed header and footer.

The Python program is embedded shallowly:
* input lines are `List String`, each element being one line as produced by
  Python `readlines()` (the line's text including its trailing newline;
  only the final line of a file may lack the terminator, and no line
  contains an interior newline);
* `regex_block_start` / `regex_block_end` embed the compiled patterns
  `^\/\*\*$` and `^ \*\/$` under Python `re.match` semantics, where `$`
  matches at end of string or just before a final newline — on any string
  the start pattern matches exactly "/**" and "/**\n", the end pattern
  exactly " */" and " */\n";
* the `for` loop of `main` becomes the tail-recursive `scan` over the line
  list, threading the state (`in_block`, `comment`, `data`) and the 1-based
  line counter of `enumerate(lines, start=1)`;
* the `raise SyntaxError('Expected end of comment', (args.input, lineno, 1, line))`
  becomes an `Except.error` carrying a `ScanError`; `args.output.write(data)`
  is reached only on the `Except.ok` branch, so `.ok` holds exactly the
  string written to the destination and `.error` means nothing is written.
-/

namespace ExtractDocs

/-- Embeds `re.compile('^\/\*\*$').match(line)` as a Boolean test: under
Python semantics the pattern accepts exactly the strings "/**" and "/**\n". -/
def regex_block_start (line : String) : Bool :=
  line == "/**" || line == "/**\n"

/-- Embeds `re.compile('^ \*\/$').match(line)` as a Boolean test: under
Python semantics the pattern accepts exactly the strings " */" and " */\n". -/
def regex_block_end (line : String) : Bool :=
  line == " */" || line == " */\n"

/-- The payload of the `SyntaxError` raised on a nested block start:
`(args.input, lineno, 1, line)` — source name, 1-based line number,
column (always 1), and the raw offending line. -/
structure ScanError where
  filename : String
  lineno : Nat
  col : Nat
  text : String
deriving DecidableEq, Repr

/-- The loop state of `main`: `in_block`, the block accumulator `comment`,
and the output accumulator `data` (initialised to the header). -/
structure ScanState where
  in_block : Bool
  comment : String
  data : String
deriving DecidableEq, Repr

/-- One iteration of the `for lineno, line in enumerate(lines, start=1)` loop. -/
def step (src : String) (lineno : Nat) (st : ScanState) (line : String) :
    Except ScanError ScanState :=
  if regex_block_start line then
    if st.in_block then
      Except.error ⟨src, lineno, 1, line⟩
    else
      Except.ok ⟨true, line, st.data⟩
  else if regex_block_end line then
    if st.in_block then
      Except.ok ⟨false, st.comment ++ line, st.data ++ (st.comment ++ line) ++ "\n"⟩
    else
      Except.ok ⟨false, st.comment, st.data⟩
  else
    if st.in_block then
      Except.ok ⟨true, st.comment ++ line, st.data⟩
    else
      Except.ok st

/-- The whole loop of `main`, from line number `lineno` in state `st`. -/
def scan (src : String) : List String → Nat → ScanState → Except ScanError ScanState
  | [], _, st => Except.ok st
  | line :: rest, lineno, st =>
    match step src lineno st line with
    | Except.error e => Except.error e
    | Except.ok st' => scan src rest (lineno + 1) st'

/-- The path component of `input` after the last '/', as a character list:
embeds `args.input.split('/')[-1]`. -/
def baseNameOf (input : String) : List Char :=
  input.data.foldl (fun acc c => if c = '/' then [] else acc ++ [c]) []

/-- Left-to-right, non-overlapping removal of every occurrence of ".mojom":
embeds Python `s.replace('.mojom', '')`. -/
def stripMojom : List Char → List Char
  | '.' :: 'm' :: 'o' :: 'j' :: 'o' :: 'm' :: rest => stripMojom rest
  | c :: rest => c :: stripMojom rest
  | [] => []

/-- Embeds `pipeline = args.input.split('/')[-1].replace('.mojom', '')`. -/
def pipelineOf (input : String) : String :=
  ⟨stripMojom (baseNameOf input)⟩

/-- The f-string header of `main` (everything `data` is initialised to). -/
def header (pipeline : String) : String :=
  "/* SPDX-License-Identifier: LGPL-2.1-or-later */\n" ++
  "/*\n" ++
  " * Copyright (C) 2021, Google Inc.\n" ++
  " *\n" ++
  " * " ++ pipeline ++ "_ipa_interface.cpp - Docs file for generated " ++
    pipeline ++ ".mojom\n" ++
  " *\n" ++
  " * This file is auto-generated. Do not edit.\n" ++
  " */\n" ++
  "\n" ++
  "namespace libcamera \x7b\n" ++
  "\n"

/-- The fixed footer appended after the loop: `data += '} /* namespace libcamera */\n'`. -/
def footer : String :=
  "\x7d /* namespace libcamera */\n"

/-- The initial loop state of `main`: `in_block = False`, `comment = ''`,
`data` holding the header. -/
def initState (input : String) : ScanState :=
  ⟨false, "", header (pipelineOf input)⟩

/-- The pure core of `main`: given the source name and its lines, either the
`SyntaxError` payload raised by the loop, or the exact string written to the
output destination. -/
def main (input : String) (lines : List String) : Except ScanError String :=
  match scan input lines 1 (initState input) with
  | Except.error e => Except.error e
  | Except.ok st => Except.ok (st.data ++ footer)

instance {ε α : Type} [DecidableEq ε] [DecidableEq α] : DecidableEq (Except ε α)
  | Except.ok a, Except.ok b =>
    if h : a = b then isTrue (congrArg Except.ok h)
    else isFalse (fun hc => h (Except.ok.inj hc))
  | Except.error a, Except.error b =>
    if h : a = b then isTrue (congrArg Except.error h)
    else isFalse (fun hc => h (Except.error.inj hc))
  | Except.ok _, Except.error _ => isFalse (fun hc => Except.noConfusion hc)
  | Except.error _, Except.ok _ => isFalse (fun hc => Except.noConfusion hc)

/-- Concatenation of a list of lines into one string (text of a block). -/
def catLines : List String → String
  | [] => ""
  | l :: ls => l ++ catLines ls

/-- A line that is neither delimiter form. -/
def plainLine (l : String) : Prop :=
  regex_block_start l = false ∧ regex_block_end l = false

instance (l : String) : Decidable (plainLine l) := by
  unfold plainLine; infer_instance

/-- The scan succeeds (no `SyntaxError`) from a given `in_block` flag:
the success or failure of `scan` depends only on this flag and the lines,
not on `comment`, `data` or the line counter. -/
def scanOk (b : Bool) : List String → Bool
  | [] => true
  | l :: ls =>
    if regex_block_start l then !b && scanOk true ls
    else if regex_block_end l then scanOk false ls
    else scanOk b ls

/-- The static malformed-input condition of claim C2: some start-delimiter
line is followed by a later start-delimiter line with no end-delimiter line
strictly between them. -/
def C2cond (ls : List String) : Prop :=
  ∃ j < ls.length, ∃ i < j,
    regex_block_start (ls.getD i "") = true ∧
    regex_block_start (ls.getD j "") = true ∧
    ∀ k < j, i < k → regex_block_end (ls.getD k "") = false

instance instDecidableC2cond (ls : List String) : Decidable (C2cond ls) :=
  decidable_of_iff
    (∃ j ∈ List.range ls.length, ∃ i ∈ List.range j,
      regex_block_start (ls.getD i "") = true ∧
      regex_block_start (ls.getD j "") = true ∧
      ∀ k ∈ List.range j, i < k → regex_block_end (ls.getD k "") = false)
    (by simp [C2cond, List.mem_range])

/-- The "zero start/end delimiter pairs" condition of claim C9: no
start-delimiter line is followed (anywhere later) by an end-delimiter line. -/
def zeroPairs (ls : List String) : Prop :=
  ∀ j < ls.length, ∀ i < j,
    regex_block_start (ls.getD i "") = true → regex_block_end (ls.getD j "") = false

instance instDecidableZeroPairs (ls : List String) : Decidable (zeroPairs ls) :=
  decidable_of_iff
    (∀ j ∈ List.range ls.length, ∀ i ∈ List.range j,
      regex_block_start (ls.getD i "") = true → regex_block_end (ls.getD j "") = false)
    (by simp [zeroPairs, List.mem_range])

/-- Modelled from the spec's words for claim C3: the input file's base name
(the path component after the last '/') with its defining extension suffix
".mojom" removed — the suffix only, and only when present. (The code itself
instead removes every occurrence; see `pipelineOf`.) -/
def specNameSuffix (input : String) : String :=
  let base : List Char := baseNameOf input
  if (".mojom".data).isSuffixOf base then ⟨base.take (base.length - 6)⟩
  else ⟨base⟩

/-- A well-formed block of input: a start-delimiter line, body lines, an
end-delimiter line (claims C1, C5). -/
structure Block where
  startLine : String
  body : List String
  endLine : String

/-- The input lines of a block. -/
def blockLines (b : Block) : List String :=
  b.startLine :: (b.body ++ [b.endLine])

/-- The captured text of a block: its lines concatenated, delimiters included. -/
def blockText (b : Block) : String :=
  b.startLine ++ catLines b.body ++ b.endLine

/-- Well-formedness of a block: real delimiters around a body of
non-delimiter lines. -/
def goodBlock (b : Block) : Prop :=
  regex_block_start b.startLine = true ∧ regex_block_end b.endLine = true ∧
    ∀ l ∈ b.body, plainLine l

instance (b : Block) : Decidable (goodBlock b) := by
  unfold goodBlock; infer_instance

/-- An input made of interleaved junk runs and blocks, ending in a junk tail:
`junk₁ ++ block₁ ++ junk₂ ++ block₂ ++ … ++ tail`. -/
def segsLines : List (List String × Block) → List String → List String
  | [], tail => tail
  | (junk, b) :: rest, tail => junk ++ (blockLines b ++ segsLines rest tail)

/-- The text the blocks of such an input contribute to the output, in input
order, each followed by one blank line. -/
def blocksOut : List (List String × Block) → String
  | [] => ""
  | (_, b) :: rest => blockText b ++ "\n" ++ blocksOut rest

/-! ### Basic lemmas about the scanner -/

theorem end_not_start {l : String} (h : regex_block_end l = true) :
    regex_block_start l = false := by
  have : l = " */" ∨ l = " */\n" := by
    simpa [regex_block_end] using h
  rcases this with h' | h' <;> subst h' <;> decide

theorem step_start_closed {s : String} (src : String) (n : Nat) (c d : String)
    (hs : regex_block_start s = true) :
    step src n ⟨false, c, d⟩ s = Except.ok ⟨true, s, d⟩ := by
  simp [step, hs]

theorem step_start_open {s : String} (src : String) (n : Nat) (c d : String)
    (hs : regex_block_start s = true) :
    step src n ⟨true, c, d⟩ s = Except.error ⟨src, n, 1, s⟩ := by
  simp [step, hs]

theorem step_end_open {e : String} (src : String) (n : Nat) (c d : String)
    (he : regex_block_end e = true) :
    step src n ⟨true, c, d⟩ e = Except.ok ⟨false, c ++ e, d ++ (c ++ e) ++ "\n"⟩ := by
  simp [step, end_not_start he, he]

theorem step_plain_open {l : String} (src : String) (n : Nat) (c d : String)
    (hl : plainLine l) :
    step src n ⟨true, c, d⟩ l = Except.ok ⟨true, c ++ l, d⟩ := by
  simp [step, hl.1, hl.2]

theorem step_closed_not_start {l : String} (src : String) (n : Nat) (c d : String)
    (hs : regex_block_start l = false) :
    step src n ⟨false, c, d⟩ l = Except.ok ⟨false, c, d⟩ := by
  by_cases he : regex_block_end l = true <;> simp [step, hs, he]

theorem scan_append_ok (src : String) (xs ys : List String) (n : Nat)
    (st st₁ : ScanState) (h : scan src xs n st = Except.ok st₁) :
    scan src (xs ++ ys) n st = scan src ys (n + xs.length) st₁ := by
  induction xs generalizing n st with
  | nil =>
    simp only [scan] at h
    cases h
    simp
  | cons l ls ih =>
    rcases hstep : step src n st l with e | st'
    · simp only [scan, List.cons_append, hstep] at h
      exact absurd h (by simp)
    · simp only [scan, List.cons_append, List.append_eq, hstep] at h ⊢
      rw [ih (n + 1) st' h]
      have hn : n + 1 + ls.length = n + (l :: ls).length := by
        simp only [List.length_cons]
        omega
      rw [hn]

theorem scan_append_error (src : String) (xs ys : List String) (n : Nat)
    (st : ScanState) (e : ScanError) (h : scan src xs n st = Except.error e) :
    scan src (xs ++ ys) n st = Except.error e := by
  induction xs generalizing n st with
  | nil => simp [scan] at h
  | cons l ls ih =>
    rcases hstep : step src n st l with e' | st'
    · simp only [scan, List.cons_append, hstep] at h ⊢
      exact h
    · simp only [scan, List.cons_append, hstep] at h ⊢
      exact ih (n + 1) st' h

theorem scan_skip_closed (src : String) (ls : List String)
    (h : ∀ l ∈ ls, plainLine l) (n : Nat) (c d : String) :
    scan src ls n ⟨false, c, d⟩ = Except.ok ⟨false, c, d⟩ := by
  induction ls generalizing n with
  | nil => rfl
  | cons l ls ih =>
    have hl := h l (by simp)
    simp only [scan, step, hl.1, hl.2, if_false, Bool.false_eq_true]
    exact ih (fun l' hl' => h l' (by simp [hl'])) (n + 1)

theorem scan_open_plain (src : String) (ls : List String)
    (h : ∀ l ∈ ls, plainLine l) (n : Nat) (c d : String) :
    scan src ls n ⟨true, c, d⟩ = Except.ok ⟨true, c ++ catLines ls, d⟩ := by
  induction ls generalizing n c with
  | nil => simp [scan, catLines]
  | cons l ls ih =>
    have hl := h l (by simp)
    simp only [scan, step_plain_open src n c d hl]
    rw [ih (fun l' hl' => h l' (by simp [hl'])) (n + 1) (c ++ l), catLines,
      String.append_assoc]

theorem scan_block (src : String) (s e : String) (body : List String) (n : Nat)
    (c d : String) (hs : regex_block_start s = true) (he : regex_block_end e = true)
    (hb : ∀ l ∈ body, plainLine l) :
    scan src (s :: (body ++ [e])) n ⟨false, c, d⟩ =
      Except.ok ⟨false, s ++ catLines body ++ e, d ++ (s ++ catLines body ++ e) ++ "\n"⟩ := by
  simp only [scan, step_start_closed src n c d hs]
  rw [scan_append_ok src body [e] (n + 1) _ _ (scan_open_plain src body hb (n + 1) s d)]
  simp only [scan, step_end_open src _ _ _ he]

theorem step_ok_lineno (src : String) (n m : Nat) (st st' : ScanState) (l : String)
    (h : step src n st l = Except.ok st') : step src m st l = Except.ok st' := by
  by_cases h1 : regex_block_start l = true
  · cases hb : st.in_block with
    | false => obtain ⟨_, _, _⟩ := st; subst hb; simp_all [step]
    | true => obtain ⟨_, _, _⟩ := st; subst hb; simp_all [step]
  · simp only [step, h1, if_false, Bool.false_eq_true] at h ⊢
    exact h

theorem scan_ok_lineno (src : String) (ls : List String) (n m : Nat)
    (st st' : ScanState) (h : scan src ls n st = Except.ok st') :
    scan src ls m st = Except.ok st' := by
  induction ls generalizing n m st with
  | nil => simpa [scan] using h
  | cons l rest ih =>
    simp only [scan] at h ⊢
    cases hstep : step src n st l with
    | error e => rw [hstep] at h; exact absurd h (by simp)
    | ok st₁ =>
      rw [hstep] at h
      rw [step_ok_lineno src n m st st₁ l hstep]
      exact ih (n + 1) (m + 1) st₁ h

theorem except_error_iff_not_ok {E A : Type} (x : Except E A) :
    (∃ er, x = Except.error er) ↔ ¬ ∃ out, x = Except.ok out := by
  cases x <;> simp

/-- Inserting, right after a prefix that leaves the scanner outside a block,
one line on which `step` is a no-op changes neither the produced output nor
whether the run fails. -/
theorem main_insert_inert (src : String) (pre post : List String) (l c d : String)
    (hpre : scan src pre 1 (initState src) = Except.ok ⟨false, c, d⟩)
    (hstep : ∀ n, step src n ⟨false, c, d⟩ l = Except.ok ⟨false, c, d⟩) :
    (∀ out, main src (pre ++ l :: post) = Except.ok out ↔
      main src (pre ++ post) = Except.ok out) ∧
    ((∃ er, main src (pre ++ l :: post) = Except.error er) ↔
      (∃ er, main src (pre ++ post) = Except.error er)) := by
  have parity : ∀ st', scan src post (1 + pre.length + 1) ⟨false, c, d⟩ = Except.ok st' ↔
      scan src post (1 + pre.length) ⟨false, c, d⟩ = Except.ok st' :=
    fun st' => ⟨scan_ok_lineno src post _ _ _ st', scan_ok_lineno src post _ _ _ st'⟩
  have e1 : ∀ out, main src (pre ++ l :: post) = Except.ok out ↔
      ∃ st', scan src post (1 + pre.length + 1) ⟨false, c, d⟩ = Except.ok st' ∧
        out = st'.data ++ footer := by
    intro out
    simp only [main, scan_append_ok src pre (l :: post) 1 _ _ hpre, scan,
      hstep (1 + pre.length)]
    rcases h3 : scan src post (1 + pre.length + 1) ⟨false, c, d⟩ with er | st <;> simp
    exact eq_comm
  have e2 : ∀ out, main src (pre ++ post) = Except.ok out ↔
      ∃ st', scan src post (1 + pre.length) ⟨false, c, d⟩ = Except.ok st' ∧
        out = st'.data ++ footer := by
    intro out
    simp only [main, scan_append_ok src pre post 1 _ _ hpre]
    rcases h3 : scan src post (1 + pre.length) ⟨false, c, d⟩ with er | st <;> simp
    exact eq_comm
  have hok : ∀ out, main src (pre ++ l :: post) = Except.ok out ↔
      main src (pre ++ post) = Except.ok out := by
    intro out
    rw [e1 out, e2 out]
    exact exists_congr fun st' => and_congr_left fun _ => parity st'
  refine ⟨hok, ?_⟩
  rw [except_error_iff_not_ok, except_error_iff_not_ok]
  exact not_congr (exists_congr hok)

/-! ### The claims -/

/-- Claim C1 (faithful capture): for an input that is exactly one well-formed
block of N lines — a start-delimiter line, body lines that are no delimiter,
an end-delimiter line — surrounded only by non-delimiter lines, the produced
output is exactly the fixed header, then those N lines byte-for-byte, then
one extra newline (a blank line, the lines all ending in a terminator), then
the fixed footer. -/
theorem C1_faithful_capture (src : String) (pre body post : List String)
    (s e : String)
    (hpre : ∀ l ∈ pre, plainLine l) (hbody : ∀ l ∈ body, plainLine l)
    (hpost : ∀ l ∈ post, plainLine l)
    (hs : regex_block_start s = true) (he : regex_block_end e = true) :
    main src (pre ++ (s :: (body ++ [e])) ++ post) =
      Except.ok (header (pipelineOf src) ++ (s ++ catLines body ++ e) ++ "\n" ++ footer) := by
  have h1 : scan src (pre ++ (s :: (body ++ [e]))) 1 (initState src) =
      Except.ok ⟨false, s ++ catLines body ++ e,
        header (pipelineOf src) ++ (s ++ catLines body ++ e) ++ "\n"⟩ := by
    simp only [initState]
    rw [scan_append_ok src pre _ 1 _ _
      (scan_skip_closed src pre hpre 1 "" (header (pipelineOf src)))]
    exact scan_block src s e body _ "" (header (pipelineOf src)) hs he hbody
  have h2 := scan_append_ok src (pre ++ (s :: (body ++ [e]))) post 1 _ _ h1
  rw [scan_skip_closed src post hpost _ _ _] at h2
  simp only [main, h2]

theorem C1_witness :
    (∀ l ∈ (["line A\n"] : List String), plainLine l) ∧
    (∀ l ∈ ([" * Hello.\n"] : List String), plainLine l) ∧
    (∀ l ∈ (["line B\n"] : List String), plainLine l) ∧
    regex_block_start "/**\n" = true ∧ regex_block_end " */\n" = true ∧
    main "bar.mojom" (["line A\n"] ++ ("/**\n" :: ([" * Hello.\n"] ++ [" */\n"])) ++ ["line B\n"]) =
      Except.ok (header (pipelineOf "bar.mojom") ++
        ("/**\n" ++ catLines [" * Hello.\n"] ++ " */\n") ++ "\n" ++ footer) :=
  ⟨by decide, by decide, by decide, by decide, by decide,
    C1_faithful_capture "bar.mojom" ["line A\n"] [" * Hello.\n"] ["line B\n"]
      "/**\n" " */\n" (by decide) (by decide) (by decide) (by decide) (by decide)⟩

/-- Claim C4 (unterminated trailing block dropped): if after some prefix the
scanner is outside a block, and the remaining input opens a block that is
never closed (no further delimiter line), the run completes without error and
produces exactly the output of the prefix alone — the accumulated text of the
unterminated block is discarded, never flushed. -/
theorem C4_unterminated_block_discarded (src : String) (pre rest : List String)
    (s c d : String)
    (hpre : scan src pre 1 (initState src) = Except.ok ⟨false, c, d⟩)
    (hs : regex_block_start s = true)
    (hrest : ∀ l ∈ rest, plainLine l) :
    main src (pre ++ s :: rest) = Except.ok (d ++ footer) ∧
    main src pre = Except.ok (d ++ footer) := by
  constructor
  · have h2 : scan src (s :: rest) (1 + pre.length) ⟨false, c, d⟩ =
        Except.ok ⟨true, s ++ catLines rest, d⟩ := by
      simp only [scan, step_start_closed src _ c d hs]
      exact scan_open_plain src rest hrest _ s d
    simp only [main, scan_append_ok src pre (s :: rest) 1 _ _ hpre, h2]
  · simp only [main, hpre]

theorem C4_witness :
    (scan "x.mojom" [" ignored\n"] 1 (initState "x.mojom") =
      Except.ok ⟨false, "", header (pipelineOf "x.mojom")⟩) ∧
    regex_block_start "/**\n" = true ∧
    (∀ l ∈ ([" * lost text\n"] : List String), plainLine l) ∧
    (main "x.mojom" ([" ignored\n"] ++ "/**\n" :: [" * lost text\n"]) =
      Except.ok (header (pipelineOf "x.mojom") ++ footer) ∧
    main "x.mojom" [" ignored\n"] = Except.ok (header (pipelineOf "x.mojom") ++ footer)) :=
  ⟨by decide, by decide, by decide,
    C4_unterminated_block_discarded "x.mojom" [" ignored\n"] [" * lost text\n"]
      "/**\n" "" (header (pipelineOf "x.mojom")) (by decide) (by decide) (by decide)⟩

theorem scan_segs (src : String) (segs : List (List String × Block))
    (tail : List String) (n : Nat) (c d : String)
    (hsegs : ∀ p ∈ segs, (∀ l ∈ p.1, plainLine l) ∧ goodBlock p.2)
    (htail : ∀ l ∈ tail, plainLine l) :
    ∃ c', scan src (segsLines segs tail) n ⟨false, c, d⟩ =
      Except.ok ⟨false, c', d ++ blocksOut segs⟩ := by
  induction segs generalizing n c d with
  | nil =>
    refine ⟨c, ?_⟩
    rw [segsLines, scan_skip_closed src tail htail n c d, blocksOut,
      String.append_empty]
  | cons p rest ih =>
    obtain ⟨junk, b⟩ := p
    have hjunk := (hsegs (junk, b) (by simp)).1
    have hgood := (hsegs (junk, b) (by simp)).2
    obtain ⟨c', h⟩ := ih (n + junk.length + (blockLines b).length)
      (blockText b) (d ++ blockText b ++ "\n")
      (fun p hp => hsegs p (by simp [hp]))
    refine ⟨c', ?_⟩
    rw [segsLines, scan_append_ok src junk _ n _ _
      (scan_skip_closed src junk hjunk n c d)]
    rw [scan_append_ok src (blockLines b) _ _ _ _
      (scan_block src b.startLine b.endLine b.body _ c d hgood.1 hgood.2.1 hgood.2.2)]
    simp only [blockText] at h
    rw [h]
    simp [blocksOut, blockText, String.append_assoc]

/-- Claim C5 (ordering): for an input interleaving arbitrary non-delimiter
junk with any number of well-formed blocks, the output is the header, then
the captured text of every block in input order — each followed by one
blank line — then the footer. -/
theorem C5_blocks_in_order (src : String) (segs : List (List String × Block))
    (tail : List String)
    (hsegs : ∀ p ∈ segs, (∀ l ∈ p.1, plainLine l) ∧ goodBlock p.2)
    (htail : ∀ l ∈ tail, plainLine l) :
    main src (segsLines segs tail) =
      Except.ok (header (pipelineOf src) ++ blocksOut segs ++ footer) := by
  obtain ⟨c', h⟩ := scan_segs src segs tail 1 "" (header (pipelineOf src)) hsegs htail
  simp only [main, initState, h]

theorem C5_witness :
    (∀ p ∈ ([(["x\n"], ⟨"/**\n", [" a\n"], " */\n"⟩),
             ([], ⟨"/**\n", [" b\n"], " */\n"⟩)] : List (List String × Block)),
      (∀ l ∈ p.1, plainLine l) ∧ goodBlock p.2) ∧
    (∀ l ∈ (["y\n"] : List String), plainLine l) ∧
    main "foo.mojom"
      (segsLines [(["x\n"], ⟨"/**\n", [" a\n"], " */\n"⟩),
                  ([], ⟨"/**\n", [" b\n"], " */\n"⟩)] ["y\n"]) =
      Except.ok (header (pipelineOf "foo.mojom") ++
        blocksOut [(["x\n"], ⟨"/**\n", [" a\n"], " */\n"⟩),
                   ([], ⟨"/**\n", [" b\n"], " */\n"⟩)] ++ footer) :=
  ⟨by decide, by decide,
    C5_blocks_in_order "foo.mojom"
      [(["x\n"], ⟨"/**\n", [" a\n"], " */\n"⟩), ([], ⟨"/**\n", [" b\n"], " */\n"⟩)]
      ["y\n"] (by decide) (by decide)⟩

/-- Claim C6 (stray end): an end-delimiter line reached while no block is
open produces no output entry and no error — the run produces exactly the
outputs, and fails in exactly the cases, of the run on the input with that
line deleted. -/
theorem C6_stray_end_inert (src : String) (pre post : List String) (e c d : String)
    (hpre : scan src pre 1 (initState src) = Except.ok ⟨false, c, d⟩)
    (he : regex_block_end e = true) :
    (∀ out, main src (pre ++ e :: post) = Except.ok out ↔
      main src (pre ++ post) = Except.ok out) ∧
    ((∃ er, main src (pre ++ e :: post) = Except.error er) ↔
      (∃ er, main src (pre ++ post) = Except.error er)) :=
  main_insert_inert src pre post e c d hpre
    (fun n => step_closed_not_start src n c d (end_not_start he))

theorem C6_witness :
    (scan "x.mojom" [] 1 (initState "x.mojom") =
      Except.ok ⟨false, "", header (pipelineOf "x.mojom")⟩) ∧
    regex_block_end " */\n" = true ∧
    main "x.mojom" ([] ++ " */\n" :: ["/**\n", " */\n"]) =
      Except.ok (header (pipelineOf "x.mojom") ++ ("/**\n" ++ " */\n") ++ "\n" ++ footer) :=
  ⟨by decide, by decide,
    ((C6_stray_end_inert "x.mojom" [] ["/**\n", " */\n"] " */\n" ""
      (header (pipelineOf "x.mojom")) (by decide) (by decide)).1
      (header (pipelineOf "x.mojom") ++ ("/**\n" ++ " */\n") ++ "\n" ++ footer)).mpr
      (by decide)⟩

/-- Claim C7 counterexample: the claim says any line encountered while no
block is open never appears in the output; but the very first input line
"/**\n" is encountered in the initial state, where no block is open, and it
does appear verbatim in the produced output document. -/
theorem C7_counterexample :
    (initState "x.mojom").in_block = false ∧
    main "x.mojom" ["/**\n", " */\n"] =
      Except.ok (header (pipelineOf "x.mojom") ++ ("/**\n" ++ " */\n") ++ "\n" ++ footer) ∧
    ("/**\n".data <:+:
      (header (pipelineOf "x.mojom") ++ ("/**\n" ++ " */\n") ++ "\n" ++ footer).data) := by
  refine ⟨rfl, by decide, ⟨(header (pipelineOf "x.mojom")).data,
    (" */\n" ++ "\n" ++ footer).data, ?_⟩⟩
  simp [String.data_append, List.append_assoc]

/-- Claim C7 amended: any line that is not a start delimiter, encountered
while no block is open (in particular any non-delimiter line outside a
block), never contributes to the output: the run produces exactly the
outputs, and fails in exactly the cases, of the run on the input with that
line deleted. (A start-delimiter line in that position does appear: it
opens a block and is emitted with it.) -/
theorem C7_amended_inert (src : String) (pre post : List String) (l c d : String)
    (hpre : scan src pre 1 (initState src) = Except.ok ⟨false, c, d⟩)
    (hl : regex_block_start l = false) :
    (∀ out, main src (pre ++ l :: post) = Except.ok out ↔
      main src (pre ++ post) = Except.ok out) ∧
    ((∃ er, main src (pre ++ l :: post) = Except.error er) ↔
      (∃ er, main src (pre ++ post) = Except.error er)) :=
  main_insert_inert src pre post l c d hpre
    (fun n => step_closed_not_start src n c d hl)

theorem C7_witness :
    (scan "x.mojom" [] 1 (initState "x.mojom") =
      Except.ok ⟨false, "", header (pipelineOf "x.mojom")⟩) ∧
    regex_block_start "ignored junk\n" = false ∧
    main "x.mojom" ([] ++ "ignored junk\n" :: ["/**\n", " */\n"]) =
      Except.ok (header (pipelineOf "x.mojom") ++ ("/**\n" ++ " */\n") ++ "\n" ++ footer) :=
  ⟨by decide, by decide,
    ((C7_amended_inert "x.mojom" [] ["/**\n", " */\n"] "ignored junk\n" ""
      (header (pipelineOf "x.mojom")) (by decide) (by decide)).1
      (header (pipelineOf "x.mojom") ++ ("/**\n" ++ " */\n") ++ "\n" ++ footer)).mpr
      (by decide)⟩

/-- Claim C10: a final line with no trailing terminator is still recognised
as a delimiter — "/**" as a start, " */" as an end — and a terminator-less
final " */" closes an open block, which is emitted followed by the single
newline the scanner appends (rather than a line terminator plus a blank
line). -/
theorem C10_terminatorless_final_delimiter (src : String) (pre body : List String)
    (s c d : String)
    (hpre : scan src pre 1 (initState src) = Except.ok ⟨false, c, d⟩)
    (hs : regex_block_start s = true)
    (hbody : ∀ l ∈ body, plainLine l) :
    regex_block_start "/**" = true ∧ regex_block_end " */" = true ∧
    main src (pre ++ s :: (body ++ [" */"])) =
      Except.ok (d ++ (s ++ catLines body ++ " */") ++ "\n" ++ footer) := by
  refine ⟨by decide, by decide, ?_⟩
  have h2 := scan_block src s " */" body (1 + pre.length) c d hs (by decide) hbody
  simp only [main, scan_append_ok src pre (s :: (body ++ [" */"])) 1 _ _ hpre, h2]

theorem C10_witness :
    (scan "x.mojom" [] 1 (initState "x.mojom") =
      Except.ok ⟨false, "", header (pipelineOf "x.mojom")⟩) ∧
    regex_block_start "/**\n" = true ∧
    (∀ l ∈ ([" * hi\n"] : List String), plainLine l) ∧
    (regex_block_start "/**" = true ∧ regex_block_end " */" = true ∧
    main "x.mojom" ([] ++ "/**\n" :: ([" * hi\n"] ++ [" */"])) =
      Except.ok (header (pipelineOf "x.mojom") ++
        ("/**\n" ++ catLines [" * hi\n"] ++ " */") ++ "\n" ++ footer)) :=
  ⟨by decide, by decide, by decide,
    C10_terminatorless_final_delimiter "x.mojom" [] [" * hi\n"] "/**\n" ""
      (header (pipelineOf "x.mojom")) (by decide) (by decide) (by decide)⟩

/-! ### Delimiter exactness (claim C8) -/

theorem str_snoc_newline_ne (s t : String) (ht : ('\n') ∉ t.data) : s ++ "\n" ≠ t := by
  intro he
  apply ht
  rw [← he, String.data_append]
  exact List.mem_append_right _ (by decide)

theorem str_snoc_newline_inj (s t : String) : s ++ "\n" = t ++ "\n" ↔ s = t := by
  constructor
  · intro he
    apply String.ext
    have h2 := String.ext_iff.mp he
    rw [String.data_append, String.data_append] at h2
    exact List.append_cancel_right h2
  · intro he; rw [he]

/-- Claim C8 (delimiter exactness): for a line with body `s` (no interior
newline), the line — with or without its trailing terminator — is treated as
a start delimiter iff `s` is exactly "/**", and as an end delimiter iff `s`
is exactly a space followed by "*/"; any other leading or trailing
characters make it an ordinary line. -/
theorem C8_delimiter_exactness (s : String) (h : ('\n') ∉ s.data) :
    (regex_block_start s = true ↔ s = "/**") ∧
    (regex_block_start (s ++ "\n") = true ↔ s = "/**") ∧
    (regex_block_end s = true ↔ s = " */") ∧
    (regex_block_end (s ++ "\n") = true ↔ s = " */") := by
  have hns : s ≠ "/**\n" := by intro he; subst he; exact h (by decide)
  have hne : s ≠ " */\n" := by intro he; subst he; exact h (by decide)
  have c1 : s ++ "\n" = "/**\n" ↔ s = "/**" := by
    rw [show ("/**\n" : String) = "/**" ++ "\n" from rfl]
    exact str_snoc_newline_inj s _
  have c2 : s ++ "\n" = " */\n" ↔ s = " */" := by
    rw [show (" */\n" : String) = " */" ++ "\n" from rfl]
    exact str_snoc_newline_inj s _
  refine ⟨?_, ?_, ?_, ?_⟩ <;>
    simp [regex_block_start, regex_block_end, hns, hne, c1, c2,
      str_snoc_newline_ne s "/**" (by decide), str_snoc_newline_ne s " */" (by decide)]

theorem C8_witness :
    (('\n') ∉ ("/**" : String).data) ∧
    ((regex_block_start "/**" = true ↔ ("/**" : String) = "/**") ∧
     (regex_block_start ("/**" ++ "\n") = true ↔ ("/**" : String) = "/**") ∧
     (regex_block_end "/**" = true ↔ ("/**" : String) = " */") ∧
     (regex_block_end ("/**" ++ "\n") = true ↔ ("/**" : String) = " */")) :=
  ⟨by decide, C8_delimiter_exactness "/**" (by decide)⟩

/-! ### Name derivation (claim C3) -/

theorem stripMojom_cons_ne (c : Char) (l : List Char) (h : c ≠ '.') :
    stripMojom (c :: l) = c :: stripMojom l := by
  rw [stripMojom.eq_def]
  split
  · simp_all
  · rename_i c' rest heq
    injection heq with h1 h2
    rw [h1, h2]
  · simp_all

theorem stripMojom_append_mojom (l : List Char) (h : ('.') ∉ l) :
    stripMojom (l ++ ".mojom".data) = l := by
  induction l with
  | nil => rfl
  | cons c cs ih =>
    have hc : c ≠ '.' := by
      intro he; subst he; exact h (List.mem_cons_self _ _)
    rw [List.cons_append, stripMojom_cons_ne c _ hc,
      ih (fun hm => h (List.mem_cons_of_mem c hm))]

theorem foldl_slash_reset (xs ys acc : List Char) :
    List.foldl (fun acc c => if c = '/' then [] else acc ++ [c]) acc (xs ++ '/' :: ys) =
    List.foldl (fun acc c => if c = '/' then [] else acc ++ [c]) [] ys := by
  rw [List.foldl_append, List.foldl_cons]
  simp

theorem foldl_no_slash (xs acc : List Char) (h : ('/') ∉ xs) :
    List.foldl (fun acc c => if c = '/' then [] else acc ++ [c]) acc xs = acc ++ xs := by
  induction xs generalizing acc with
  | nil => simp
  | cons c cs ih =>
    have hc : c ≠ '/' := by
      intro he; subst he; exact h (List.mem_cons_self _ _)
    rw [List.foldl_cons, if_neg hc, ih _ (fun hm => h (List.mem_cons_of_mem c hm))]
    simp

/-- Claim C3 counterexample: the code removes every occurrence of ".mojom"
from the base name (Python `str.replace`), not just a trailing suffix. On
`a/b/x.mojom.mojom` the generated name is "x", while base-name-minus-suffix
is "x.mojom". -/
theorem C3_counterexample :
    pipelineOf "a/b/x.mojom.mojom" = "x" ∧
    specNameSuffix "a/b/x.mojom.mojom" = "x.mojom" ∧
    pipelineOf "a/b/x.mojom.mojom" ≠ specNameSuffix "a/b/x.mojom.mojom" :=
  ⟨by decide, by decide, by decide⟩

/-- Claim C3 amended: the name used in the header is the input's base name
with every occurrence of the substring ".mojom" removed, not only a trailing
suffix. When ".mojom" occurs in the base name only as its trailing suffix —
in particular for a path `p/b.mojom` whose base stem `b` contains no '.' —
this coincides with removing the suffix, and the name is `b`
(so `a/b/foo.mojom` yields `foo`). -/
theorem C3_name_derivation (p b : String)
    (hdot : ('.') ∉ b.data) (hslash : ('/') ∉ b.data) :
    pipelineOf (p ++ "/" ++ b ++ ".mojom") = b ∧
    specNameSuffix (p ++ "/" ++ b ++ ".mojom") = b := by
  have hsplit : (p ++ "/" ++ b ++ ".mojom").data =
      p.data ++ ('/' :: (b.data ++ ".mojom".data)) := by
    simp only [String.data_append]
    simp [List.append_assoc]
  have hmem : ('/') ∉ b.data ++ ".mojom".data := by
    intro hm
    rcases List.mem_append.mp hm with h1 | h2
    · exact hslash h1
    · exact absurd h2 (by decide)
  have hbase : baseNameOf (p ++ "/" ++ b ++ ".mojom") = b.data ++ ".mojom".data := by
    unfold baseNameOf
    rw [hsplit, foldl_slash_reset, foldl_no_slash _ _ hmem]
    simp
  constructor
  · unfold pipelineOf
    rw [hbase, stripMojom_append_mojom b.data hdot]
  · unfold specNameSuffix
    rw [hbase]
    have hsuf : ((".mojom".data).isSuffixOf (b.data ++ ".mojom".data)) = true := by
      simp [List.isSuffixOf_iff_suffix]
    rw [if_pos hsuf]
    have hlen : b.data.length = (b.data ++ ".mojom".data).length - 6 := by
      rw [List.length_append, show (".mojom".data).length = 6 from rfl]
      omega
    rw [List.take_left' hlen]

theorem C3_witness :
    (('.') ∉ ("foo" : String).data) ∧ (('/') ∉ ("foo" : String).data) ∧
    (pipelineOf ("a/b" ++ "/" ++ "foo" ++ ".mojom") = "foo" ∧
     specNameSuffix ("a/b" ++ "/" ++ "foo" ++ ".mojom") = "foo") :=
  ⟨by decide, by decide, C3_name_derivation "a/b" "foo" (by decide) (by decide)⟩

/-! ### Inputs with no delimiter pair (claim C9) -/

theorem zeroPairs_tail {l : String} {ls : List String} (h : zeroPairs (l :: ls)) :
    zeroPairs ls := by
  intro j hj i hi hstart
  have h2 := h (j + 1) (by simp only [List.length_cons]; omega) (i + 1) (by omega)
  rw [List.getD_cons_succ, List.getD_cons_succ] at h2
  exact h2 hstart

theorem C2cond_cons (l : String) {ls : List String} (h : C2cond ls) :
    C2cond (l :: ls) := by
  obtain ⟨j, hj, i, hi, s1, s2, hk⟩ := h
  refine ⟨j + 1, by simp only [List.length_cons]; omega, i + 1, by omega, ?_, ?_, ?_⟩
  · rwa [List.getD_cons_succ]
  · rwa [List.getD_cons_succ]
  · intro k hk1 hk2
    match k, hk2 with
    | k' + 1, _ =>
      rw [List.getD_cons_succ]
      exact hk k' (by omega) (by omega)

theorem plain_tail_of_start_head {l : String} {ls : List String}
    (hzp : zeroPairs (l :: ls)) (hnc : ¬ C2cond (l :: ls))
    (hs : regex_block_start l = true) : ∀ l' ∈ ls, plainLine l' := by
  have hends : ∀ m, m < ls.length → regex_block_end (ls.getD m "") = false := by
    intro m hm
    have h2 := hzp (m + 1) (by simp only [List.length_cons]; omega) 0 (by omega)
    rw [List.getD_cons_succ, List.getD_cons_zero] at h2
    exact h2 hs
  intro l' hmem
  obtain ⟨j, hj, hget⟩ := List.mem_iff_getElem.mp hmem
  have hgetD : ls.getD j "" = l' := by
    rw [List.getD_eq_getElem?_getD, List.getElem?_eq_getElem hj, hget]
    rfl
  constructor
  · by_contra hstart
    have hstart' : regex_block_start l' = true := by
      cases hb : regex_block_start l' with
      | false => exact absurd hb hstart
      | true => rfl
    apply hnc
    refine ⟨j + 1, by simp only [List.length_cons]; omega, 0, by omega, ?_, ?_, ?_⟩
    · rwa [List.getD_cons_zero]
    · rw [List.getD_cons_succ, hgetD]; exact hstart'
    · intro k hk1 hk2
      match k, hk2 with
      | k' + 1, _ =>
        rw [List.getD_cons_succ]
        exact hends k' (by omega)
  · rw [← hgetD]
    exact hends j hj

theorem scan_zeroPairs (src : String) (ls : List String) (n : Nat) (c d : String)
    (hzp : zeroPairs ls) (hnc : ¬ C2cond ls) :
    ∃ b' c', scan src ls n ⟨false, c, d⟩ = Except.ok ⟨b', c', d⟩ := by
  induction ls generalizing n with
  | nil => exact ⟨false, c, rfl⟩
  | cons l ls ih =>
    by_cases hs : regex_block_start l = true
    · refine ⟨true, l ++ catLines ls, ?_⟩
      simp only [scan, step_start_closed src n c d hs]
      exact scan_open_plain src ls (plain_tail_of_start_head hzp hnc hs) (n + 1) l d
    · have hs' : regex_block_start l = false := by
        cases hb : regex_block_start l with
        | false => rfl
        | true => exact absurd hb hs
      obtain ⟨b', c', h⟩ := ih (n + 1) (zeroPairs_tail hzp) (fun hc => hnc (C2cond_cons l hc))
      refine ⟨b', c', ?_⟩
      simp only [scan, step_closed_not_start src n c d hs']
      exact h

/-- Claim C9 counterexample: the input consisting of two start-delimiter
lines contains zero start/end delimiter pairs (it has no end-delimiter line
at all), yet the scan raises the malformed-input error instead of producing
the header immediately followed by the footer — no output exists at all. -/
theorem C9_counterexample :
    zeroPairs ["/**\n", "/**\n"] ∧
    main "x.mojom" ["/**\n", "/**\n"] = Except.error ⟨"x.mojom", 2, 1, "/**\n"⟩ ∧
    main "x.mojom" ["/**\n", "/**\n"] ≠
      Except.ok (header (pipelineOf "x.mojom") ++ footer) :=
  ⟨by decide, by decide, by decide⟩

/-- Claim C9 amended: for every input containing zero start/end delimiter
pairs and no second start delimiter without an intervening end delimiter
(the malformed case, which errors instead), the output equals exactly the
fixed header immediately followed by the fixed footer. -/
theorem C9_no_pairs_header_footer (src : String) (ls : List String)
    (h1 : zeroPairs ls) (h2 : ¬ C2cond ls) :
    main src ls = Except.ok (header (pipelineOf src) ++ footer) := by
  obtain ⟨b', c', h⟩ := scan_zeroPairs src ls 1 "" (header (pipelineOf src)) h1 h2
  simp only [main, initState, h]

theorem C9_witness :
    zeroPairs [" */\n", "junk\n", "/**\n", "still open\n"] ∧
    ¬ C2cond [" */\n", "junk\n", "/**\n", "still open\n"] ∧
    main "x.mojom" [" */\n", "junk\n", "/**\n", "still open\n"] =
      Except.ok (header (pipelineOf "x.mojom") ++ footer) :=
  ⟨by decide, by decide,
    C9_no_pairs_header_footer "x.mojom" [" */\n", "junk\n", "/**\n", "still open\n"]
      (by decide) (by decide)⟩

/-! ### Characterisation of the malformed-input error (claim C2) -/

theorem bool_false_of_not_true {b : Bool} (h : ¬ b = true) : b = false := by
  cases b
  · rfl
  · exact absurd rfl h

theorem scan_ok_exists_iff (src : String) (ls : List String) :
    ∀ (n : Nat) (b : Bool) (c d : String),
    (∃ st, scan src ls n ⟨b, c, d⟩ = Except.ok st) ↔ scanOk b ls = true := by
  induction ls with
  | nil => intro n b c d; simp [scan, scanOk]
  | cons l ls ih =>
    intro n b c d
    by_cases hs : regex_block_start l = true
    · cases b with
      | true => simp [scan, step_start_open src n c d hs, scanOk, hs]
      | false =>
        simp only [scan, step_start_open, step_start_closed src n c d hs, scanOk, hs,
          if_true, Bool.not_false, Bool.true_and]
        exact ih (n + 1) true l d
    · have hs' : regex_block_start l = false := bool_false_of_not_true hs
      by_cases he : regex_block_end l = true
      · cases b with
        | true =>
          simp only [scan, step_end_open src n c d he, scanOk, hs',
            Bool.false_eq_true, if_false, he, if_true]
          exact ih (n + 1) false (c ++ l) (d ++ (c ++ l) ++ "\n")
        | false =>
          simp only [scan, step_closed_not_start src n c d hs', scanOk, hs',
            Bool.false_eq_true, if_false, he, if_true]
          exact ih (n + 1) false c d
      · have he' : regex_block_end l = false := bool_false_of_not_true he
        cases b with
        | true =>
          simp only [scan, step_plain_open src n c d ⟨hs', he'⟩, scanOk, hs', he',
            Bool.false_eq_true, if_false]
          exact ih (n + 1) true (c ++ l) d
        | false =>
          simp only [scan, step_closed_not_start src n c d hs', scanOk, hs', he',
            Bool.false_eq_true, if_false]
          exact ih (n + 1) false c d

theorem scanOk_true_false_of_start (ls : List String)
    (h : ∃ j, j < ls.length ∧ regex_block_start (ls.getD j "") = true ∧
      ∀ k, k < j → regex_block_end (ls.getD k "") = false) :
    scanOk true ls = false := by
  induction ls with
  | nil => obtain ⟨j, hj, _⟩ := h; simp at hj
  | cons l ls ih =>
    obtain ⟨j, hj, hstart, hnoend⟩ := h
    match j with
    | 0 =>
      rw [List.getD_cons_zero] at hstart
      simp [scanOk, hstart]
    | j' + 1 =>
      have hend0 : regex_block_end l = false := by
        have h0 := hnoend 0 (by omega)
        rwa [List.getD_cons_zero] at h0
      by_cases hs : regex_block_start l = true
      · simp [scanOk, hs]
      · have hs' : regex_block_start l = false := bool_false_of_not_true hs
        simp only [scanOk, hs', hend0, Bool.false_eq_true, if_false]
        apply ih
        refine ⟨j', by simp only [List.length_cons] at hj; omega, ?_, ?_⟩
        · rwa [List.getD_cons_succ] at hstart
        · intro k hk
          have h2 := hnoend (k + 1) (by omega)
          rwa [List.getD_cons_succ] at h2

theorem scanOk_false_of_C2cond (ls : List String) :
    ∀ b : Bool, C2cond ls → scanOk b ls = false := by
  induction ls with
  | nil =>
    intro b h
    obtain ⟨j, hj, _⟩ := h
    simp at hj
  | cons l ls ih =>
    intro b h
    obtain ⟨j, hj, i, hi, s1, s2, hk⟩ := h
    match i with
    | 0 =>
      rw [List.getD_cons_zero] at s1
      match j, hi with
      | j' + 1, _ =>
        cases b with
        | true => simp [scanOk, s1]
        | false =>
          simp only [scanOk, s1, if_true, Bool.not_false, Bool.true_and]
          apply scanOk_true_false_of_start
          refine ⟨j', by simp only [List.length_cons] at hj; omega, ?_, ?_⟩
          · rwa [List.getD_cons_succ] at s2
          · intro k hk'
            have h2 := hk (k + 1) (by omega) (by omega)
            rwa [List.getD_cons_succ] at h2
    | i' + 1 =>
      match j, hi with
      | j' + 1, _ =>
        have hcond : C2cond ls := by
          refine ⟨j', by simp only [List.length_cons] at hj; omega, i', by omega, ?_, ?_, ?_⟩
          · rwa [List.getD_cons_succ] at s1
          · rwa [List.getD_cons_succ] at s2
          · intro k hk1 hk2
            have h2 := hk (k + 1) (by omega) (by omega)
            rwa [List.getD_cons_succ] at h2
        by_cases hs : regex_block_start l = true
        · cases b with
          | true => simp [scanOk, hs]
          | false =>
            simp only [scanOk, hs, if_true, Bool.not_false, Bool.true_and]
            exact ih true hcond
        · have hs' : regex_block_start l = false := bool_false_of_not_true hs
          by_cases he : regex_block_end l = true
          · simp only [scanOk, hs', Bool.false_eq_true, if_false, he, if_true]
            exact ih false hcond
          · have he' : regex_block_end l = false := bool_false_of_not_true he
            simp only [scanOk, hs', he', Bool.false_eq_true, if_false]
            exact ih b hcond

theorem scanOk_false_elim (ls : List String) :
    (scanOk false ls = false → C2cond ls) ∧
    (scanOk true ls = false →
      (∃ j, j < ls.length ∧ regex_block_start (ls.getD j "") = true ∧
        ∀ k, k < j → regex_block_end (ls.getD k "") = false) ∨ C2cond ls) := by
  induction ls with
  | nil => constructor <;> intro h <;> simp [scanOk] at h
  | cons l ls ih =>
    by_cases hs : regex_block_start l = true
    · constructor
      · intro h
        simp only [scanOk, hs, if_true, Bool.not_false, Bool.true_and] at h
        rcases ih.2 h with ⟨j, hj, hstart, hnoend⟩ | hc
        · refine ⟨j + 1, by simp only [List.length_cons]; omega, 0, by omega, ?_, ?_, ?_⟩
          · rwa [List.getD_cons_zero]
          · rwa [List.getD_cons_succ]
          · intro k hk1 hk2
            match k, hk2 with
            | k' + 1, _ =>
              rw [List.getD_cons_succ]
              exact hnoend k' (by omega)
        · exact C2cond_cons l hc
      · intro _
        left
        exact ⟨0, by simp only [List.length_cons]; omega,
          by rwa [List.getD_cons_zero], fun k hk => absurd hk (by omega)⟩
    · have hs' : regex_block_start l = false := bool_false_of_not_true hs
      by_cases he : regex_block_end l = true
      · constructor
        · intro h
          simp only [scanOk, hs', Bool.false_eq_true, if_false, he, if_true] at h
          exact C2cond_cons l (ih.1 h)
        · intro h
          simp only [scanOk, hs', Bool.false_eq_true, if_false, he, if_true] at h
          exact Or.inr (C2cond_cons l (ih.1 h))
      · have he' : regex_block_end l = false := bool_false_of_not_true he
        constructor
        · intro h
          simp only [scanOk, hs', he', Bool.false_eq_true, if_false] at h
          exact C2cond_cons l (ih.1 h)
        · intro h
          simp only [scanOk, hs', he', Bool.false_eq_true, if_false] at h
          rcases ih.2 h with ⟨j, hj, hstart, hnoend⟩ | hc
          · left
            refine ⟨j + 1, by simp only [List.length_cons]; omega,
              by rwa [List.getD_cons_succ], ?_⟩
            intro k hk
            match k with
            | 0 => rwa [List.getD_cons_zero]
            | k' + 1 =>
              rw [List.getD_cons_succ]
              exact hnoend k' (by omega)
          · exact Or.inr (C2cond_cons l hc)

theorem main_error_iff_not_scanOk (src : String) (ls : List String) :
    (∃ e, main src ls = Except.error e) ↔ scanOk false ls = false := by
  rcases hscan : scan src ls 1 ⟨false, "", header (pipelineOf src)⟩ with e | st
  · simp only [main, initState, hscan]
    constructor
    · intro _
      cases hb : scanOk false ls with
      | false => rfl
      | true =>
        obtain ⟨st, hst⟩ :=
          (scan_ok_exists_iff src ls 1 false "" (header (pipelineOf src))).mpr hb
        rw [hscan] at hst
        exact absurd hst (by simp)
    · intro _
      exact ⟨e, rfl⟩
  · simp only [main, initState, hscan]
    constructor
    · rintro ⟨e, he⟩
      exact absurd he (by simp)
    · intro hfalse
      have htrue := (scan_ok_exists_iff src ls 1 false "" (header (pipelineOf src))).mp
        ⟨st, hscan⟩
      rw [htrue] at hfalse
      exact Bool.noConfusion hfalse

/-- Claim C2 (nested start): the scan fails with the malformed-input error
exactly on the inputs containing a second start-delimiter line with no
intervening end-delimiter line; on such an input the raised error carries
the source identifier, the 1-based line number of the second start
delimiter, column 1, and the raw offending line, and — the result being an
error — no output string is produced for the destination. -/
theorem C2_nested_start_error :
    (∀ (src : String) (ls : List String),
      (∃ e, main src ls = Except.error e) ↔ C2cond ls) ∧
    (∀ (src : String) (pre mid rest : List String) (s1 s2 c d : String),
      scan src pre 1 (initState src) = Except.ok ⟨false, c, d⟩ →
      regex_block_start s1 = true → regex_block_start s2 = true →
      (∀ l ∈ mid, plainLine l) →
      main src (pre ++ s1 :: (mid ++ s2 :: rest)) =
        Except.error ⟨src, pre.length + mid.length + 2, 1, s2⟩) := by
  constructor
  · intro src ls
    rw [main_error_iff_not_scanOk]
    exact ⟨fun h => (scanOk_false_elim ls).1 h, fun h => scanOk_false_of_C2cond ls false h⟩
  · intro src pre mid rest s1 s2 c d hpre hs1 hs2 hmid
    have h1 : scan src (s1 :: (mid ++ s2 :: rest)) (1 + pre.length) ⟨false, c, d⟩ =
        Except.error ⟨src, pre.length + mid.length + 2, 1, s2⟩ := by
      simp only [scan, step_start_closed src _ c d hs1]
      rw [scan_append_ok src mid (s2 :: rest) _ _ _
        (scan_open_plain src mid hmid _ s1 d)]
      simp only [scan, step_start_open src _ _ d hs2]
      have harith : 1 + pre.length + 1 + mid.length = pre.length + mid.length + 2 := by
        omega
      rw [harith]
    simp only [main, scan_append_ok src pre (s1 :: (mid ++ s2 :: rest)) 1 _ _ hpre, h1]

theorem C2_witness :
    (scan "x.mojom" [] 1 (initState "x.mojom") =
      Except.ok ⟨false, "", header (pipelineOf "x.mojom")⟩) ∧
    regex_block_start "/**\n" = true ∧
    (∀ l ∈ (["mid\n"] : List String), plainLine l) ∧
    main "x.mojom" ([] ++ "/**\n" :: (["mid\n"] ++ "/**\n" :: [])) =
      Except.error ⟨"x.mojom",
        ([] : List String).length + (["mid\n"] : List String).length + 2, 1, "/**\n"⟩ :=
  ⟨by decide, by decide, by decide,
    C2_nested_start_error.2 "x.mojom" [] ["mid\n"] [] "/**\n" "/**\n" ""
      (header (pipelineOf "x.mojom")) (by decide) (by decide) (by decide) (by decide)⟩

end ExtractDocs
